import Mathlib

/-!
Verification of `utils.py` (markdown conversion and message chunking) of the
AI-telegrambot repository.  Strings are modelled as `List Char`; Python's
`int` arguments (`max_length`) are modelled as `Int`; `len` is `List.length`
coerced to `Int` where it is compared against `max_length`.  Regex-driven
passes are modelled as explicit scanners that reproduce the matching
behaviour of the concrete patterns used in the source (leftmost match,
advance by one character on a failed attempt, non-greedy where the pattern
is non-greedy).  Recursions that consume a computed suffix use a fuel
argument initialised to `length + 1`; every recursive step consumes at least
one character, so the fuel never runs out.
-/

abbrev Str := List Char

/-- Whitespace set of Python's `str.strip()` / regex `\s` (ASCII part). -/
def pySpace (c : Char) : Bool :=
  c = ' ' || c = '\t' || c = '\n' || c = '\r' || c = '\x0b' || c = '\x0c'

/-- Python `str.strip()`. -/
def pyStrip (s : Str) : Str :=
  ((s.dropWhile pySpace).reverse.dropWhile pySpace).reverse

/-- Python `html.escape` on one character (`quote=True`). -/
def pyEscapeChar (c : Char) : Str :=
  if c = '&' then ('&' :: 'a' :: 'm' :: 'p' :: ';' :: [])
  else if c = '<' then ('&' :: 'l' :: 't' :: ';' :: [])
  else if c = '>' then ('&' :: 'g' :: 't' :: ';' :: [])
  else if c = '"' then ('&' :: 'q' :: 'u' :: 'o' :: 't' :: ';' :: [])
  else if c = '\'' then ('&' :: '#' :: 'x' :: '2' :: '7' :: ';' :: [])
  else [c]

/-- Python `html.escape` (`quote=True`), as used by `from html import escape`. -/
def pyEscape (s : Str) : Str :=
  s.foldr (fun c r => pyEscapeChar c ++ r) []

/-- Python `str.split(d)` for a single-character separator. -/
def pySplitChar (d : Char) : Str → List Str
  | [] => [[]]
  | c :: cs =>
    if c = d then [] :: pySplitChar d cs
    else
      match pySplitChar d cs with
      | [] => [[c]]
      | h :: t => (c :: h) :: t

/-- Python `str.ljust(w)` (pad on the right with spaces). -/
def pyLjust (w : Nat) (s : Str) : Str :=
  s ++ List.replicate (w - s.length) ' '

/-- Python `sep.join(parts)`. -/
def joinSep (sep : Str) : List Str → Str
  | [] => []
  | [x] => x
  | x :: xs => x ++ sep ++ joinSep sep xs

/-- First occurrence of the literal substring `t` in `s`:
`breakAt t s = some (b, a)` iff `s = b ++ t ++ a` with `b` shortest. -/
def breakAt (t : Str) (s : Str) : Option (Str × Str) :=
  if t.isPrefixOf s then some ([], s.drop t.length)
  else
    match s with
    | [] => none
    | c :: cs => (breakAt t cs).map (fun p => (c :: p.1, p.2))

/-- Python `str.replace(pat, rep)` (all non-overlapping occurrences, left to right). -/
def replaceAllAux (pat rep : Str) : Nat → Str → Str
  | 0, s => s
  | f + 1, s =>
    if pat = [] then s
    else if pat.isPrefixOf s then rep ++ replaceAllAux pat rep f (s.drop pat.length)
    else
      match s with
      | [] => []
      | c :: cs => c :: replaceAllAux pat rep f cs

def replaceAll (pat rep s : Str) : Str := replaceAllAux pat rep (s.length + 1) s

/-- Number of non-overlapping occurrences of `pat` in `s` (Python `str.count`). -/
def countSubAux (pat : Str) : Nat → Str → Nat
  | 0, _ => 0
  | f + 1, s =>
    if pat = [] then 0
    else if pat.isPrefixOf s then 1 + countSubAux pat f (s.drop pat.length)
    else
      match s with
      | [] => 0
      | _ :: cs => countSubAux pat f cs

def count_sub (pat s : Str) : Nat := countSubAux pat (s.length + 1) s

/-- Regex `\w` (ASCII part), used by `(?:\w+)?` in the code-fence pattern and
by `\w+` in the tag pattern of `track_tags`. -/
def isWordChar (c : Char) : Bool := c.isAlphanum || c = '_'

/-! ### Converter: `markdown_to_html` (utils.py lines 4-125) -/

/-- Step 1, `re.sub(r'/\*[\s\S]*?\*/', '', text)`: first comment span
`(before, rest-after-closing-delimiter)`. -/
def findComment (s : Str) : Option (Str × Str) :=
  match breakAt ('/' :: '*' :: []) s with
  | none => none
  | some (b, r) =>
    match breakAt ('*' :: '/' :: []) r with
    | none => none
    | some (_, r2) => some (b, r2)

def stripCommentsAux : Nat → Str → Str
  | 0, s => s
  | f + 1, s =>
    match findComment s with
    | none => s
    | some (b, r) => b ++ stripCommentsAux f r

def strip_comments (s : Str) : Str := stripCommentsAux (s.length + 1) s

/-- Step 2 matcher, regex ```` ```(?:\w+)?\n([\s\S]*?)``` ````, at the current
position: optional greedy language word after the fence, a mandatory newline,
then non-greedy content up to the first closing fence. -/
def matchFenceAt (s : Str) : Option (Str × Str) :=
  if ('`' :: '`' :: '`' :: []).isPrefixOf s then
    let r2 := (s.drop 3).dropWhile isWordChar
    match r2 with
    | c :: r3 =>
      if c = '\n' then
        match breakAt ('`' :: '`' :: '`' :: []) r3 with
        | some (content, rest) => some (content, rest)
        | none => none
      else none
    | [] => none
  else none

def findFence : Str → Option (Str × Str × Str)
  | [] => none
  | c :: cs =>
    match matchFenceAt (c :: cs) with
    | some (content, rest) => some ([], content, rest)
    | none => (findFence cs).map (fun p => (c :: p.1, p.2.1, p.2.2))

/-- Placeholder `___CODE_BLOCK_{n}___`. -/
def placeholderCB (n : Nat) : Str :=
  ("___CODE_BLOCK_".toList) ++ (Nat.repr n).toList ++ ("___".toList)

/-- Placeholder `___TABLE_BLOCK_{n}___`. -/
def placeholderTB (n : Nat) : Str :=
  ("___TABLE_BLOCK_".toList) ++ (Nat.repr n).toList ++ ("___".toList)

/-- Placeholder `___INLINE_CODE_{n}___`. -/
def placeholderIC (n : Nat) : Str :=
  ("___INLINE_CODE_".toList) ++ (Nat.repr n).toList ++ ("___".toList)

/-- `code_block_replacer`: the stored rendering `<pre>{escape(content)}</pre>`. -/
def code_block_replacer (content : Str) : Str :=
  ("<pre>".toList) ++ pyEscape content ++ ("</pre>".toList)

/-- Step 2: extract fenced code blocks, returning the text with placeholders
substituted and the list of stored renderings (in placeholder order). -/
def codePassAux : Nat → Nat → Str → Str × List Str
  | 0, _, s => (s, [])
  | f + 1, n, s =>
    match findFence s with
    | none => (s, [])
    | some (b, content, rest) =>
      let res := codePassAux f (n + 1) rest
      (b ++ placeholderCB n ++ res.1, code_block_replacer content :: res.2)

def code_block_pass (s : Str) : Str × List Str := codePassAux (s.length + 1) 0 s

/-- Character class `[\s:|\-]` of the table-separator row. -/
def sepClass (c : Char) : Bool := pySpace c || c = ':' || c = '|' || c = '-'

/-- Largest index `q ≥ 1` in `run` with `run[q] = '|'` and `run[q+1] = '\n'`
(the backtracking of the greedy `[\s:|\-]+` before the final `\|\n`). -/
def lastSepCutAux : Str → Nat → Option Nat
  | '|' :: '\n' :: rest, i =>
    (match lastSepCutAux ('\n' :: rest) (i + 1) with
     | some j => some j
     | none => if 1 ≤ i then some i else none)
  | _ :: rest, i => lastSepCutAux rest (i + 1)
  | [], _ => none

def lastSepCut (run : Str) : Option Nat := lastSepCutAux run 0

/-- A data-row line `\|.+\|` (`.` does not match newline): starts and ends
with `|` and has at least one character between. -/
def rowOk (line : Str) : Bool :=
  decide (3 ≤ line.length) && line.take 1 = ['|'] && line.getLast? = some '|'

/-- The greedy `(?:\|.+\|\n?)*` rows loop: returns `(consumed, rest)`. -/
def rowsScanAux : Nat → Str → Str × Str
  | 0, s => ([], s)
  | f + 1, s =>
    match breakAt ['\n'] s with
    | some (line, r) =>
      if rowOk line then
        let res := rowsScanAux f r
        (line ++ '\n' :: res.1, res.2)
      else ([], s)
    | none => if rowOk s then (s, []) else ([], s)

/-- Table regex `\|.+\|\n\|[\s:|\-]+\|\n(?:\|.+\|\n?)*` matched at the current
position (a line start): returns `(group1, rest)`. -/
def matchTableAt (s : Str) : Option (Str × Str) :=
  match breakAt ['\n'] s with
  | none => none
  | some (line1, r1) =>
    if rowOk line1 then
      match r1 with
      | p :: r2 =>
        if p = '|' then
          let run := r2.takeWhile sepClass
          match lastSepCut run with
          | none => none
          | some q =>
            let rows := rowsScanAux (r2.length + 1) (r2.drop (q + 2))
            some (line1 ++ '\n' :: p :: (run.take (q + 2) ++ rows.1), rows.2)
        else none
      | [] => none
    else none

/-- Scan for `(?:^|\n)` followed by a table, at positions after the string
start: the matched `\n` is part of `group(0)` and is consumed. -/
def findTableNL : Str → Option (Str × Str × Str)
  | [] => none
  | c :: cs =>
    if c = '\n' then
      match matchTableAt cs with
      | some (g1, rest) => some ([], '\n' :: g1, rest)
      | none => (findTableNL cs).map (fun p => (c :: p.1, p.2.1, p.2.2))
    else (findTableNL cs).map (fun p => (c :: p.1, p.2.1, p.2.2))

/-- First table match `(before, group0, rest)`; at offset 0 the `^` branch of
`(?:^|\n)` matches without consuming anything. -/
def findTable (s : Str) : Option (Str × Str × Str) :=
  match matchTableAt s with
  | some (g1, rest) => some ([], g1, rest)
  | none => findTableNL s

/-- Column-width update of `table_replacer` (Python uses the *raw* cell
length `len(cell)` here, and only for `i < num_cols`). -/
def updWidths : List Nat → List Str → List Nat
  | [], _ => []
  | ws, [] => ws
  | w :: ws, cell :: cs => max w cell.length :: updWidths ws cs

/-- One rendered table row: `' | '.join(escape(cell).ljust(width))`, for
cells with index `< num_cols`. -/
def renderCells : List Nat → List Str → List Str
  | [], _ => []
  | _, [] => []
  | w :: ws, cell :: cs => pyLjust w (pyEscape cell) :: renderCells ws cs

def renderRowLine (widths : List Nat) (row : List Str) : Str :=
  joinSep (' ' :: '|' :: ' ' :: []) (renderCells widths row) ++ ['\n']

def renderSepLine (widths : List Nat) : Str :=
  joinSep ('-' :: '+' :: '-' :: []) (widths.map (fun w => List.replicate w '-')) ++ ['\n']

def renderRestRows (widths : List Nat) : List (List Str) → Str
  | [] => []
  | r :: rs => renderRowLine widths r ++ renderRestRows widths rs

/-- Body of `table_replacer` after parsing: header row, separator line after
index 0, data rows, all inside a `<pre>` pair. -/
def renderTable (rows : List (List Str)) : Str :=
  let numCols := (rows.headD []).length
  let widths := rows.foldl updWidths (List.replicate numCols 0)
  ("<pre>\n".toList)
    ++ (match rows with
        | [] => []
        | r0 :: rest => renderRowLine widths r0 ++ renderSepLine widths ++ renderRestRows widths rest)
    ++ ("</pre>".toList)

/-- Cell list of one table line: split on `|`, strip each cell, drop empties. -/
def tableCells (line : Str) : List Str :=
  ((pySplitChar '|' line).map pyStrip).filter (fun c => c ≠ [])

/-- `table_replacer` (utils.py lines 24-74): `none` means the malformed-table
fallback (the matched text is put back unchanged and no block is stored). -/
def table_replacer (tableText : Str) : Option Str :=
  let lines := ((pySplitChar '\n' (pyStrip tableText)).map pyStrip).filter (fun l => l ≠ [])
  if lines.length < 2 then none
  else
    let rows := ((lines.take 1 ++ lines.drop 2).map tableCells).filter (fun c => c ≠ [])
    if rows = [] then none
    else some (renderTable rows)

/-- Step 3: extract tables, with placeholder numbering only advancing on
successfully rendered tables. -/
def tablePassAux : Nat → Nat → Str → Str × List Str
  | 0, _, s => (s, [])
  | f + 1, n, s =>
    match findTable s with
    | none => (s, [])
    | some (b, g0, rest) =>
      match table_replacer g0 with
      | some rendered =>
        let res := tablePassAux f (n + 1) rest
        (b ++ placeholderTB n ++ res.1, rendered :: res.2)
      | none =>
        let res := tablePassAux f n rest
        (b ++ g0 ++ res.1, res.2)

def table_pass (s : Str) : Str × List Str := tablePassAux (s.length + 1) 0 s

/-- Step 4 matcher, regex `` `([^`]+)` `` at the current position. -/
def matchInlineAt (s : Str) : Option (Str × Str) :=
  match s with
  | c :: cs =>
    if c = '`' then
      let content := cs.takeWhile (fun x => x ≠ '`')
      if content = [] then none
      else
        match cs.dropWhile (fun x => x ≠ '`') with
        | _ :: r => some (content, r)
        | [] => none
    else none
  | [] => none

def findInline : Str → Option (Str × Str × Str)
  | [] => none
  | c :: cs =>
    match matchInlineAt (c :: cs) with
    | some (content, rest) => some ([], content, rest)
    | none => (findInline cs).map (fun p => (c :: p.1, p.2.1, p.2.2))

/-- `inline_code_replacer`: the stored rendering `<code>{escape(content)}</code>`. -/
def inline_code_replacer (content : Str) : Str :=
  ("<code>".toList) ++ pyEscape content ++ ("</code>".toList)

def inlinePassAux : Nat → Nat → Str → Str × List Str
  | 0, _, s => (s, [])
  | f + 1, n, s =>
    match findInline s with
    | none => (s, [])
    | some (b, content, rest) =>
      let res := inlinePassAux f (n + 1) rest
      (b ++ placeholderIC n ++ res.1, inline_code_replacer content :: res.2)

def inline_code_pass (s : Str) : Str × List Str := inlinePassAux (s.length + 1) 0 s

/-- Matcher for `dd([^d]+?)dd` at the current position (bold `**`/`__`,
strike `~~`): non-greedy content of non-delimiter characters. -/
def matchDblAt (d : Char) (s : Str) : Option (Str × Str) :=
  match s with
  | c1 :: c2 :: rest =>
    if c1 = d && c2 = d then
      let content := rest.takeWhile (fun x => x ≠ d)
      if content = [] then none
      else
        match rest.dropWhile (fun x => x ≠ d) with
        | e1 :: e2 :: r => if e1 = d && e2 = d then some (content, r) else none
        | _ => none
    else none
  | _ => none

def findDbl (d : Char) : Str → Option (Str × Str × Str)
  | [] => none
  | c :: cs =>
    match matchDblAt d (c :: cs) with
    | some (content, rest) => some ([], content, rest)
    | none => (findDbl d cs).map (fun p => (c :: p.1, p.2.1, p.2.2))

def subDblAux (d : Char) (tago tagc : Str) : Nat → Str → Str
  | 0, s => s
  | f + 1, s =>
    match findDbl d s with
    | none => s
    | some (b, content, rest) => b ++ tago ++ content ++ tagc ++ subDblAux d tago tagc f rest

/-- `re.sub` for the double-delimiter patterns of steps 5 and 7. -/
def subDbl (d : Char) (tago tagc s : Str) : Str := subDblAux d tago tagc (s.length + 1) s

/-- Matcher for `d([^d]+?)d` at the current position (italic `*`/`_`). -/
def matchSglAt (d : Char) (s : Str) : Option (Str × Str) :=
  match s with
  | c1 :: rest =>
    if c1 = d then
      let content := rest.takeWhile (fun x => x ≠ d)
      if content = [] then none
      else
        match rest.dropWhile (fun x => x ≠ d) with
        | _ :: r => some (content, r)
        | [] => none
    else none
  | [] => none

def findSgl (d : Char) : Str → Option (Str × Str × Str)
  | [] => none
  | c :: cs =>
    match matchSglAt d (c :: cs) with
    | some (content, rest) => some ([], content, rest)
    | none => (findSgl d cs).map (fun p => (c :: p.1, p.2.1, p.2.2))

def subSglAux (d : Char) (tago tagc : Str) : Nat → Str → Str
  | 0, s => s
  | f + 1, s =>
    match findSgl d s with
    | none => s
    | some (b, content, rest) => b ++ tago ++ content ++ tagc ++ subSglAux d tago tagc f rest

/-- `re.sub` for the single-delimiter patterns of step 6. -/
def subSgl (d : Char) (tago tagc s : Str) : Str := subSglAux d tago tagc (s.length + 1) s

/-- Step 8 matcher, regex `\[([^\]]+)\]\(([^)]+)\)` at the current position:
returns `(label, url, rest)`. -/
def matchLinkAt (s : Str) : Option (Str × Str × Str) :=
  match s with
  | c :: rest =>
    if c = '[' then
      let label := rest.takeWhile (fun x => x ≠ ']')
      if label = [] then none
      else
        match rest.dropWhile (fun x => x ≠ ']') with
        | _ :: r2 =>
          match r2 with
          | p :: r3 =>
            if p = '(' then
              let url := r3.takeWhile (fun x => x ≠ ')')
              if url = [] then none
              else
                match r3.dropWhile (fun x => x ≠ ')') with
                | _ :: r4 => some (label, url, r4)
                | [] => none
            else none
          | [] => none
        | [] => none
    else none
  | [] => none

def findLink : Str → Option (Str × Str × Str × Str)
  | [] => none
  | c :: cs =>
    match matchLinkAt (c :: cs) with
    | some (label, url, rest) => some ([], label, url, rest)
    | none => (findLink cs).map (fun p => (c :: p.1, p.2.1, p.2.2.1, p.2.2.2))

/-- `link_replacer`: `<a href="{escape(url)}">{label}</a>` (label unescaped). -/
def link_replacer (label url : Str) : Str :=
  ("<a href=\"".toList) ++ pyEscape url ++ ("\">".toList) ++ label ++ ("</a>".toList)

def linkPassAux : Nat → Str → Str
  | 0, s => s
  | f + 1, s =>
    match findLink s with
    | none => s
    | some (b, label, url, rest) => b ++ link_replacer label url ++ linkPassAux f rest

def link_pass (s : Str) : Str := linkPassAux (s.length + 1) s

/-- Step 9 content scan for `\|\|(.+?)\|\|`: non-greedy, `.` excludes the
newline; returns `(content, rest-after-closing-bars)`. -/
def spoilScan : Str → Option (Str × Str)
  | [] => none
  | c :: cs =>
    if c = '\n' then none
    else if cs.take 2 = ('|' :: '|' :: []) then some ([c], cs.drop 2)
    else (spoilScan cs).map (fun p => (c :: p.1, p.2))

def matchSpoilAt (s : Str) : Option (Str × Str) :=
  match s with
  | '|' :: '|' :: r => spoilScan r
  | _ => none

def findSpoil : Str → Option (Str × Str × Str)
  | [] => none
  | c :: cs =>
    match matchSpoilAt (c :: cs) with
    | some (content, rest) => some ([], content, rest)
    | none => (findSpoil cs).map (fun p => (c :: p.1, p.2.1, p.2.2))

def spoilPassAux : Nat → Str → Str
  | 0, s => s
  | f + 1, s =>
    match findSpoil s with
    | none => s
    | some (b, content, rest) =>
      b ++ ("<tg-spoiler>".toList) ++ content ++ ("</tg-spoiler>".toList) ++ spoilPassAux f rest

def spoiler_pass (s : Str) : Str := spoilPassAux (s.length + 1) s

/-- Restore loop `for i, code in enumerate(blocks): text = text.replace(...)`. -/
def restoreAux (mk : Nat → Str) : Nat → List Str → Str → Str
  | _, [], s => s
  | i, c :: cs, s => restoreAux mk (i + 1) cs (replaceAll (mk i) c s)

/-- `markdown_to_html` (utils.py lines 4-125). -/
def markdown_to_html (s : Str) : Str :=
  let t1 := strip_comments s
  let p2 := code_block_pass t1
  let p3 := table_pass p2.1
  let p4 := inline_code_pass p3.1
  let t5 := subDbl '*' ("<b>".toList) ("</b>".toList) p4.1
  let t6 := subDbl '_' ("<b>".toList) ("</b>".toList) t5
  let t7 := subSgl '*' ("<i>".toList) ("</i>".toList) t6
  let t8 := subSgl '_' ("<i>".toList) ("</i>".toList) t7
  let t9 := subDbl '~' ("<s>".toList) ("</s>".toList) t8
  let t10 := link_pass t9
  let t11 := spoiler_pass t10
  let t12 := restoreAux placeholderIC 0 p4.2 t11
  let t13 := restoreAux placeholderTB 0 p3.2 t12
  restoreAux placeholderCB 0 p2.2 t13

/-! ### Chunker: `smart_split_message` (utils.py lines 128-298) -/

inductive BKind
  | text
  | special
deriving DecidableEq, Repr

/-- First match of `<pre>[\s\S]*?</pre>` (`re.finditer` step): non-greedy, so
the block ends at the first `</pre>` after the first `<pre>`. -/
def find_pre (s : Str) : Option (Str × Str × Str) :=
  match breakAt ("<pre>".toList) s with
  | none => none
  | some (b, r) =>
    match breakAt ("</pre>".toList) r with
    | none => none
    | some (c, r2) => some (b, ("<pre>".toList) ++ c ++ ("</pre>".toList), r2)

/-- Segmentation of utils.py lines 137-168: text between special blocks is
stripped and dropped when blank. -/
def buildBlocksAux : Nat → Str → List (BKind × Str)
  | 0, _ => []
  | f + 1, s =>
    match find_pre s with
    | none => if pyStrip s = [] then [] else [(BKind.text, pyStrip s)]
    | some (b, blk, r) =>
      (if pyStrip b = [] then [] else [(BKind.text, pyStrip b)])
        ++ (BKind.special, blk) :: buildBlocksAux f r

def buildBlocks (s : Str) : List (BKind × Str) := buildBlocksAux (s.length + 1) s

/-- Python `tag[1:].split()[0].rstrip('>')`: the tag name used to build a
closing tag. -/
def closeNameOf (tag : Str) : Str :=
  ((((tag.drop 1).dropWhile pySpace).takeWhile (fun c => !pySpace c)).reverse.dropWhile
      (fun c => c = '>')).reverse

/-- The open-tag stack is stored with the most recently opened tag first
(Python appends to and pops from the end of its list). -/
def get_open_tags_string (openTags : List Str) : Str :=
  openTags.reverse.flatten

/-- Closing tags for the stack, most recently opened first (Python iterates
`reversed(open_tags)`). -/
def get_close_tags_string (openTags : List Str) : Str :=
  (openTags.map (fun t => ('<' :: '/' :: []) ++ closeNameOf t ++ ['>'])).flatten

/-- One lexical event of the tag pattern
`<(/?)(\w+)(?:\s[^>]*)?>|<(tg-spoiler)>|</(tg-spoiler)>`. -/
inductive TagTok
  | opn (t : Str)
  | close (n : Str)
  | spOpen
  | spClose
deriving DecidableEq, Repr

/-- Match of the tag pattern at the current position; the first alternative
(`\w+`, with optional whitespace-led attributes) is tried before the two
literal `tg-spoiler` alternatives. -/
def matchTagAt (s : Str) : Option (TagTok × Str) :=
  match s with
  | '<' :: r1 =>
    let slash := r1.take 1 = ['/']
    let r2 := if slash then r1.drop 1 else r1
    let w := r2.takeWhile isWordChar
    let r3 := r2.dropWhile isWordChar
    let named : Option (TagTok × Str) :=
      if w = [] then none
      else
        match r3 with
        | '>' :: rest =>
          some (if slash then TagTok.close w else TagTok.opn ('<' :: w ++ ['>']), rest)
        | c :: r4 =>
          if pySpace c then
            let attrs := r4.takeWhile (fun x => x ≠ '>')
            match r4.dropWhile (fun x => x ≠ '>') with
            | '>' :: rest =>
              some (if slash then TagTok.close w
                    else TagTok.opn ('<' :: w ++ c :: attrs ++ ['>']), rest)
            | _ => none
          else none
        | [] => none
    match named with
    | some t => some t
    | none =>
      if ("<tg-spoiler>".toList).isPrefixOf s then some (TagTok.spOpen, s.drop 12)
      else if ("</tg-spoiler>".toList).isPrefixOf s then some (TagTok.spClose, s.drop 13)
      else none
  | _ => none

def scanTagsAux : Nat → Str → List TagTok
  | 0, _ => []
  | f + 1, s =>
    match s with
    | [] => []
    | c :: cs =>
      match matchTagAt (c :: cs) with
      | some (t, rest) => t :: scanTagsAux f rest
      | none => scanTagsAux f cs

/-- All tag events of a chunk, in order (`re.finditer` of the tag pattern). -/
def scanTags (s : Str) : List TagTok := scanTagsAux (s.length + 1) s

/-- Pop the entry nearest the top whose text starts with `<name` (Python
searches `open_tags` from the last index downward with `startswith`);
when nothing matches the stack is returned unchanged. -/
def popMatchAux (name : Str) : List Str → List Str
  | [] => []
  | t :: ts => if ('<' :: name).isPrefixOf t then ts else t :: popMatchAux name ts

/-- Stack update for one tag event (utils.py lines 197-211): a spoiler close
pops only when the top of the stack is exactly `<tg-spoiler>`. -/
def applyTok (st : List Str) : TagTok → List Str
  | TagTok.spOpen => ("<tg-spoiler>".toList) :: st
  | TagTok.spClose =>
    (match st with
     | t :: ts => if t = ("<tg-spoiler>".toList) then ts else t :: ts
     | [] => [])
  | TagTok.close n => popMatchAux n st
  | TagTok.opn t => t :: st

/-- `track_tags` (utils.py lines 190-211), as a function of the stack. -/
def track_tags (st : List Str) (chunk : Str) : List Str :=
  (scanTags chunk).foldl applyTok st

/-- Variant worded as the spec describes it: a spoiler closing construct is
tracked exactly like a named closing tag (searched down the stack).  Used
only to compare against the source behaviour. -/
def applyTokSpecNamed (st : List Str) : TagTok → List Str
  | TagTok.spOpen => ("<tg-spoiler>".toList) :: st
  | TagTok.spClose => popMatchAux ("tg-spoiler".toList) st
  | TagTok.close n => popMatchAux n st
  | TagTok.opn t => t :: st

def track_tags_spec_named (st : List Str) (chunk : Str) : List Str :=
  (scanTags chunk).foldl applyTokSpecNamed st

/-- Characters `[.!?]` of the sentence separator pattern. -/
def isSentPunct (c : Char) : Bool := c = '.' || c = '!' || c = '?'

/-- Match of `([.!?]+\s+|\n\n+)` at the current position (first alternative
tried first); returns `(separator, rest)`. -/
def matchSentAt (s : Str) : Option (Str × Str) :=
  let p := s.takeWhile isSentPunct
  if p ≠ [] then
    let r := s.dropWhile isSentPunct
    let ws := r.takeWhile pySpace
    if ws ≠ [] then some (p ++ ws, r.dropWhile pySpace) else none
  else
    match s with
    | '\n' :: '\n' :: _ =>
      some (s.takeWhile (fun c => c = '\n'), s.dropWhile (fun c => c = '\n'))
    | _ => none

def findSent : Str → Option (Str × Str × Str)
  | [] => none
  | c :: cs =>
    match matchSentAt (c :: cs) with
    | some (sep, rest) => some ([], sep, rest)
    | none => (findSent cs).map (fun p => (c :: p.1, p.2.1, p.2.2))

def sentSplitAux : Nat → Str → List Str
  | 0, s => [s]
  | f + 1, s =>
    match findSent s with
    | none => [s]
    | some (b, sep, rest) => b :: sep :: sentSplitAux f rest

/-- `re.split(r'([.!?]+\s+|\n\n+)', block)`: pieces and captured separators
interleaved, as Python returns them. -/
def sentence_split (s : Str) : List Str := sentSplitAux (s.length + 1) s

/-- Python `s[5:-6]`, the inner content of a `<pre>...</pre>` block. -/
def pre_inner (p : Str) : Str := (p.drop 5).take (p.length - 11)

/-- Accumulator state of the chunk-assembly loop. -/
structure SState where
  parts : List Str
  cur : Str
  tags : List Str
deriving DecidableEq, Repr

/-- Line loop of the oversized-`<pre>` branch (utils.py lines 228-237):
returns the accumulated parts and the final `temp_block`. -/
def split_pre_lines (maxLen : Int) : List Str → Str → List Str → List Str × Str
  | parts, temp, [] => (parts, temp)
  | parts, temp, line :: rest =>
    if ((temp.length + line.length + 12 : Nat) : Int) ≤ maxLen then
      split_pre_lines maxLen parts (temp ++ line ++ ['\n']) rest
    else
      let parts2 :=
        if temp ≠ [] then parts ++ [("<pre>".toList) ++ temp ++ ("</pre>".toList)] else parts
      split_pre_lines maxLen parts2 (line ++ ['\n']) rest

/-- Character-slicing fallback (utils.py lines 242-243); unreachable in
practice because every special block starts with `<pre>`.  Python's `range`
yields nothing for a negative step (and raises for step 0), modelled as the
empty list for a non-positive step. -/
def char_slices (maxLen : Int) (bc : Str) : List Str :=
  if maxLen - 100 ≤ 0 then []
  else
    let step := (maxLen - 100).toNat
    (List.range ((bc.length + step - 1) / step)).map (fun k => (bc.drop (k * step)).take step)

/-- Python `current_part.endswith('\n\n')`. -/
def endsWithNN (s : Str) : Bool := s.reverse.take 2 = ('\n' :: '\n' :: [])

/-- Sentence loop of utils.py lines 264-278. -/
def sent_loop (maxLen : Int) : SState → List Str → SState
  | st, [] => st
  | st, sent :: rest =>
    if pyStrip sent = [] then sent_loop maxLen st rest
    else if ((st.cur.length + sent.length : Nat) : Int) ≤ maxLen then
      sent_loop maxLen { st with cur := st.cur ++ sent, tags := track_tags st.tags sent } rest
    else
      let parts2 :=
        if pyStrip st.cur ≠ [] then
          st.parts ++ [pyStrip st.cur ++ get_close_tags_string st.tags]
        else st.parts
      let cur2 := get_open_tags_string st.tags ++ sent
      sent_loop maxLen { parts := parts2, cur := cur2, tags := track_tags [] cur2 } rest

/-- Body of the main block loop (utils.py lines 213-292) for one block. -/
def process_block (maxLen : Int) (st : SState) (bk : BKind) (bc : Str) : SState :=
  let bl := bc.length
  if bk = BKind.special ∧ (bl : Int) > maxLen then
    let st1 : SState :=
      if pyStrip st.cur ≠ [] then { parts := st.parts ++ [pyStrip st.cur], cur := [], tags := [] }
      else st
    if ("<pre>".toList).isPrefixOf bc then
      let res := split_pre_lines maxLen st1.parts [] (pySplitChar '\n' (pre_inner bc))
      let parts2 :=
        if res.2 ≠ [] then res.1 ++ [("<pre>".toList) ++ res.2 ++ ("</pre>".toList)] else res.1
      { st1 with parts := parts2 }
    else
      { st1 with parts := st1.parts ++ char_slices maxLen bc }
  else if ((st.cur.length + bl + 2 : Nat) : Int) > maxLen then
    let st1 : SState :=
      if pyStrip st.cur ≠ [] then
        { parts := st.parts ++ [pyStrip st.cur ++ get_close_tags_string st.tags],
          cur := get_open_tags_string st.tags, tags := st.tags }
      else st
    if ((st1.cur.length + bl : Nat) : Int) > maxLen then
      let parts2 :=
        if st1.cur ≠ get_open_tags_string st1.tags then
          st1.parts ++ [pyStrip st1.cur ++ get_close_tags_string st1.tags]
        else st1.parts
      if bk = BKind.text then
        sent_loop maxLen { parts := parts2, cur := [], tags := [] } (sentence_split bc)
      else
        { parts := parts2, cur := bc, tags := track_tags [] bc }
    else
      let cur2 := if st1.cur ≠ [] ∧ ¬ endsWithNN st1.cur then st1.cur ++ ('\n' :: '\n' :: []) else st1.cur
      { st1 with cur := cur2 ++ bc, tags := track_tags st1.tags bc }
  else
    let cur2 :=
      if st.cur ≠ [] ∧ ¬ endsWithNN st.cur ∧ bk ≠ BKind.special then
        st.cur ++ ('\n' :: '\n' :: [])
      else st.cur
    { st with cur := cur2 ++ bc, tags := track_tags st.tags bc }

/-- `smart_split_message` (utils.py lines 128-298). -/
def smart_split_message (text : Str) (maxLen : Int) : List Str :=
  if (text.length : Int) ≤ maxLen then [text]
  else
    let blocks := buildBlocks text
    let blocks2 := if blocks = [] then [(BKind.text, text)] else blocks
    let fin := blocks2.foldl (fun st b => process_block maxLen st b.1 b.2) ⟨[], [], []⟩
    if pyStrip fin.cur ≠ [] then fin.parts ++ [pyStrip fin.cur ++ get_close_tags_string fin.tags]
    else fin.parts

/-- The `<pre>`/`</pre>` wrapping used by the converter and re-applied by the
chunker when slicing an oversized block. -/
def wrapPre (x : Str) : Str := ("<pre>".toList) ++ x ++ ("</pre>".toList)

/-- Lines re-joined the way the oversized-`<pre>` loop accumulates them:
each line followed by one newline. -/
def nlJoin (g : List Str) : Str := (g.map (fun l => l ++ ['\n'])).flatten

/-- Characters that can trigger any rewriting pass of `markdown_to_html`:
`*` (comments, bold, italic), `_` (bold, italic), `~` (strike), a backtick
(code blocks, inline code), `|` (tables, spoilers), `[` (links). -/
def triggerChars : List Char := ['*', '_', '~', '`', '|', '[']

/-! ### Helper lemmas -/

theorem breakAt_some_decomp {t s b a : Str} (h : breakAt t s = some (b, a)) :
    s = b ++ t ++ a := by
  induction s generalizing b with
  | nil =>
    rw [breakAt] at h
    by_cases hp : t.isPrefixOf ([] : Str)
    · simp only [hp, if_true] at h
      have ht : t = [] := by
        have := List.isPrefixOf_iff_prefix.mp hp
        simpa [List.prefix_nil] using this
      cases h
      simp [ht]
    · simp [hp] at h
  | cons c cs ih =>
    rw [breakAt] at h
    by_cases hp : t.isPrefixOf (c :: cs)
    · simp only [hp, if_true, Option.some.injEq, Prod.mk.injEq] at h
      obtain ⟨hb, ha⟩ := h
      obtain ⟨u, hu⟩ := List.isPrefixOf_iff_prefix.mp hp
      subst hb ha
      rw [← hu]
      simp [List.drop_left]
    · simp only [hp, if_false] at h
      cases hbr : breakAt t cs with
      | none => rw [hbr] at h; simp at h
      | some p =>
        rw [hbr] at h
        cases p with
        | mk b2 a2 =>
          simp only [Option.map] at h
          injection h with h2
          injection h2 with hb ha
          subst ha
          have := ih hbr
          subst this
          rw [← hb]
          simp

theorem breakAt_none_of_not_mem {t s : Str} {c : Char} (hct : c ∈ t) (hcs : c ∉ s) :
    breakAt t s = none := by
  cases hbr : breakAt t s with
  | none => rfl
  | some p =>
    exfalso
    apply hcs
    have := breakAt_some_decomp (t := t) (s := s) (b := p.1) (a := p.2) (by rw [hbr])
    rw [this]
    simp only [List.mem_append]
    exact Or.inl (Or.inr hct)

theorem takeWhile_append_all {p : Char → Bool} {l l2 : Str} (h : ∀ c ∈ l, p c = true) :
    (l ++ l2).takeWhile p = l ++ l2.takeWhile p := by
  induction l with
  | nil => simp
  | cons c cs ih =>
    have hc : p c = true := h c (by simp)
    simp only [List.cons_append, List.takeWhile_cons, hc, if_true]
    rw [ih (fun x hx => h x (by simp [hx]))]

theorem dropWhile_append_all {p : Char → Bool} {l l2 : Str} (h : ∀ c ∈ l, p c = true) :
    (l ++ l2).dropWhile p = l2.dropWhile p := by
  induction l with
  | nil => simp
  | cons c cs ih =>
    have hc : p c = true := h c (by simp)
    simp only [List.cons_append, List.dropWhile_cons, hc, if_true]
    exact ih (fun x hx => h x (by simp [hx]))

theorem pyStrip_nil : pyStrip ([] : Str) = [] := rfl

theorem pyStrip_eq_nil_of_all_space {s : Str} (h : ∀ c ∈ s, pySpace c = true) :
    pyStrip s = [] := by
  unfold pyStrip
  rw [List.dropWhile_eq_nil_iff.mpr h]
  simp

/-! Identity lemmas: each rewriting pass leaves a string unchanged when its
trigger character does not occur in it. -/

theorem findComment_none {s : Str} (h : '*' ∉ s) : findComment s = none := by
  unfold findComment
  rw [breakAt_none_of_not_mem (c := '*') (by simp) h]

theorem strip_comments_id {s : Str} (h : '*' ∉ s) : strip_comments s = s := by
  unfold strip_comments stripCommentsAux
  rw [findComment_none h]

theorem matchFenceAt_none {s : Str} (h : '`' ∉ s) : matchFenceAt s = none := by
  unfold matchFenceAt
  have : ¬ (('`' :: '`' :: '`' :: []).isPrefixOf s = true) := by
    intro hp
    obtain ⟨u, hu⟩ := List.isPrefixOf_iff_prefix.mp hp
    apply h
    rw [← hu]
    simp
  simp [this]

theorem findFence_none {s : Str} (h : '`' ∉ s) : findFence s = none := by
  induction s with
  | nil => rfl
  | cons c cs ih =>
    unfold findFence
    rw [matchFenceAt_none h, ih (fun hc => h (by simp [hc]))]
    rfl

theorem code_block_pass_id {s : Str} (h : '`' ∉ s) : code_block_pass s = (s, []) := by
  unfold code_block_pass codePassAux
  rw [findFence_none h]

theorem matchTableAt_none {s : Str} (h : '|' ∉ s) : matchTableAt s = none := by
  unfold matchTableAt
  cases hbr : breakAt ['\n'] s with
  | none => rfl
  | some p =>
    have hd := breakAt_some_decomp (t := ['\n']) (s := s) (b := p.1) (a := p.2) (by rw [hbr])
    have hline : ¬ (rowOk p.1 = true) := by
      unfold rowOk
      intro hro
      simp only [Bool.and_eq_true, decide_eq_true_eq] at hro
      obtain ⟨⟨_, htake⟩, _⟩ := hro
      apply h
      rw [hd]
      have : '|' ∈ p.1 := by
        have : p.1.take 1 ⊆ p.1 := List.take_subset 1 p.1
        apply this
        rw [htake]
        simp
      simp [this]
    simp [hline]

theorem findTableNL_none {s : Str} (h : '|' ∉ s) : findTableNL s = none := by
  induction s with
  | nil => rfl
  | cons c cs ih =>
    have hcs : '|' ∉ cs := fun hc => h (by simp [hc])
    unfold findTableNL
    rw [matchTableAt_none hcs, ih hcs]
    by_cases hc : c = '\n' <;> simp [hc]

theorem findTable_none {s : Str} (h : '|' ∉ s) : findTable s = none := by
  unfold findTable
  rw [matchTableAt_none h, findTableNL_none h]

theorem table_pass_id {s : Str} (h : '|' ∉ s) : table_pass s = (s, []) := by
  unfold table_pass tablePassAux
  rw [findTable_none h]

theorem matchInlineAt_none {s : Str} (h : '`' ∉ s) : matchInlineAt s = none := by
  unfold matchInlineAt
  cases s with
  | nil => rfl
  | cons c cs =>
    have : ¬ (c = '`') := fun hc => h (by simp [hc])
    simp [this]

theorem findInline_none {s : Str} (h : '`' ∉ s) : findInline s = none := by
  induction s with
  | nil => rfl
  | cons c cs ih =>
    unfold findInline
    rw [matchInlineAt_none h, ih (fun hc => h (by simp [hc]))]
    rfl

theorem inline_code_pass_id {s : Str} (h : '`' ∉ s) : inline_code_pass s = (s, []) := by
  unfold inline_code_pass inlinePassAux
  rw [findInline_none h]

theorem matchDblAt_none {d : Char} {s : Str} (h : d ∉ s) : matchDblAt d s = none := by
  unfold matchDblAt
  cases s with
  | nil => rfl
  | cons c1 rest =>
    cases rest with
    | nil => rfl
    | cons c2 rest2 =>
      have : ¬ (c1 = d) := fun hc => h (by simp [hc])
      simp [this]

theorem findDbl_none {d : Char} {s : Str} (h : d ∉ s) : findDbl d s = none := by
  induction s with
  | nil => rfl
  | cons c cs ih =>
    unfold findDbl
    rw [matchDblAt_none h, ih (fun hc => h (by simp [hc]))]
    rfl

theorem subDbl_id {d : Char} {tago tagc s : Str} (h : d ∉ s) : subDbl d tago tagc s = s := by
  unfold subDbl subDblAux
  rw [findDbl_none h]

theorem matchSglAt_none {d : Char} {s : Str} (h : d ∉ s) : matchSglAt d s = none := by
  unfold matchSglAt
  cases s with
  | nil => rfl
  | cons c1 rest =>
    have : ¬ (c1 = d) := fun hc => h (by simp [hc])
    simp [this]

theorem findSgl_none {d : Char} {s : Str} (h : d ∉ s) : findSgl d s = none := by
  induction s with
  | nil => rfl
  | cons c cs ih =>
    unfold findSgl
    rw [matchSglAt_none h, ih (fun hc => h (by simp [hc]))]
    rfl

theorem subSgl_id {d : Char} {tago tagc s : Str} (h : d ∉ s) : subSgl d tago tagc s = s := by
  unfold subSgl subSglAux
  rw [findSgl_none h]

theorem matchLinkAt_none {s : Str} (h : '[' ∉ s) : matchLinkAt s = none := by
  unfold matchLinkAt
  cases s with
  | nil => rfl
  | cons c rest =>
    have : ¬ (c = '[') := fun hc => h (by simp [hc])
    simp [this]

theorem findLink_none {s : Str} (h : '[' ∉ s) : findLink s = none := by
  induction s with
  | nil => rfl
  | cons c cs ih =>
    unfold findLink
    rw [matchLinkAt_none h, ih (fun hc => h (by simp [hc]))]
    rfl

theorem link_pass_id {s : Str} (h : '[' ∉ s) : link_pass s = s := by
  unfold link_pass linkPassAux
  rw [findLink_none h]

theorem matchSpoilAt_none {s : Str} (h : '|' ∉ s) : matchSpoilAt s = none := by
  unfold matchSpoilAt
  cases s with
  | nil => rfl
  | cons c1 rest =>
    cases rest with
    | nil =>
      have : ¬ (c1 = '|') := fun hc => h (by simp [hc])
      simp [this]
    | cons c2 rest2 =>
      have h1 : ¬ (c1 = '|') := fun hc => h (by simp [hc])
      simp [h1]

theorem findSpoil_none {s : Str} (h : '|' ∉ s) : findSpoil s = none := by
  induction s with
  | nil => rfl
  | cons c cs ih =>
    unfold findSpoil
    rw [matchSpoilAt_none h, ih (fun hc => h (by simp [hc]))]
    rfl

theorem spoiler_pass_id {s : Str} (h : '|' ∉ s) : spoiler_pass s = s := by
  unfold spoiler_pass spoilPassAux
  rw [findSpoil_none h]

theorem restoreAux_nil (mk : Nat → Str) (i : Nat) (s : Str) : restoreAux mk i [] s = s := rfl

/-- Claim C4 (amended): `markdown_to_html` escapes characters only inside the
constructs it extracts (code-block content, table cells, inline code, link
URLs); literal text outside recognized constructs passes through unchanged
and unescaped.  In particular, input without any trigger character is
returned exactly as it is, even when it contains markup-significant
characters such as `<` or `&`. -/
theorem C4_plain_text_unchanged (s : Str) (h : ∀ c ∈ s, c ∉ triggerChars) :
    markdown_to_html s = s := by
  have hstar : '*' ∉ s := fun hc => (h _ hc) (by simp [triggerChars])
  have hund : '_' ∉ s := fun hc => (h _ hc) (by simp [triggerChars])
  have htld : '~' ∉ s := fun hc => (h _ hc) (by simp [triggerChars])
  have hbt : '`' ∉ s := fun hc => (h _ hc) (by simp [triggerChars])
  have hbar : '|' ∉ s := fun hc => (h _ hc) (by simp [triggerChars])
  have hbrk : '[' ∉ s := fun hc => (h _ hc) (by simp [triggerChars])
  have e1 : strip_comments s = s := strip_comments_id hstar
  have e2 : code_block_pass s = (s, []) := code_block_pass_id hbt
  have e3 : table_pass s = (s, []) := table_pass_id hbar
  have e4 : inline_code_pass s = (s, []) := inline_code_pass_id hbt
  have e5 : subDbl '*' ("<b>".toList) ("</b>".toList) s = s := subDbl_id hstar
  have e6 : subDbl '_' ("<b>".toList) ("</b>".toList) s = s := subDbl_id hund
  have e7 : subSgl '*' ("<i>".toList) ("</i>".toList) s = s := subSgl_id hstar
  have e8 : subSgl '_' ("<i>".toList) ("</i>".toList) s = s := subSgl_id hund
  have e9 : subDbl '~' ("<s>".toList) ("</s>".toList) s = s := subDbl_id htld
  have e10 : link_pass s = s := link_pass_id hbrk
  have e11 : spoiler_pass s = s := spoiler_pass_id hbar
  simp only [markdown_to_html, e1, e2, e3, e4, e5, e6, e7, e8, e9, e10, e11, restoreAux_nil]

theorem C4_plain_text_unchanged_witness :
    (∀ c ∈ ("hello, world. 2 > 1 & 1 < 2".toList), c ∉ triggerChars) ∧
      markdown_to_html ("hello, world. 2 > 1 & 1 < 2".toList)
        = ("hello, world. 2 > 1 & 1 < 2".toList) :=
  ⟨by decide, C4_plain_text_unchanged ("hello, world. 2 > 1 & 1 < 2".toList) (by decide)⟩

/-- Claim C4 (counterexample): `<` and `&` are markup-significant characters
of the output dialect, are not part of any recognized construct in
`"1 < 2 & 3"`, and yet are not escaped: the output equals the input and
differs from the escaped form. -/
theorem C4_counterexample :
    markdown_to_html ("1 < 2 & 3".toList) = ("1 < 2 & 3".toList) ∧
      pyEscape ("1 < 2 & 3".toList) ≠ ("1 < 2 & 3".toList) ∧
      '<' ∈ markdown_to_html ("1 < 2 & 3".toList) := by
  refine ⟨by decide, by decide, by decide⟩

/-- Claim C3: evaluation at the failing input.  A fenced code block whose
content is `**not bold**` is first replaced by the placeholder
`___CODE_BLOCK_0___`, but the italic pass `_([^_]+?)_` then rewrites the
placeholder itself (`_CODE_` and `_0_` become italic spans), so the final
`replace` finds no placeholder: the stored `<pre>` rendering is lost and the
output is the mangled placeholder, not the protected content. -/
theorem C3_placeholder_destroyed :
    markdown_to_html ("```\n**not bold**\n```".toList)
        = ("__<i>CODE</i>BLOCK<i>0</i>__".toList) ∧
      count_sub ("not bold".toList) (markdown_to_html ("```\n**not bold**\n```".toList)) = 0 ∧
      code_block_replacer (pyEscape ("**not bold**\n".toList))
        = ("<pre>**not bold**\n</pre>".toList) := by
  refine ⟨by decide, by decide, by decide⟩

/-- Claim C7: evaluation at the failing inputs.  The exact input of the claim
(`a|b` without edge pipes) does not match the table pattern and passes
through unchanged; with the edge pipes the pattern requires, the renderer
builds the expected preformatted block (column widths 1 and 2), but the
table placeholder is itself rewritten by the italic pass, so
`markdown_to_html` outputs the mangled placeholder instead of the table. -/
theorem C7_table_rendering :
    markdown_to_html ("a|b\n---|---\n1|22".toList) = ("a|b\n---|---\n1|22".toList) ∧
      table_replacer ("|a|b|\n|---|---|\n|1|22|\n".toList)
        = some ("<pre>\na | b \n--+---\n1 | 22\n</pre>".toList) ∧
      markdown_to_html ("|a|b|\n|---|---|\n|1|22|\n".toList)
        = ("__<i>TABLE</i>BLOCK<i>0</i>__".toList) := by
  refine ⟨by decide, by decide, by decide⟩

/-- Claim C1: evaluation at the failing input.  The input `aaaaaa` contains
no sentence separator, so the sentence loop emits it whole: the single
returned chunk has length 6 > 5. -/
theorem C1_oversized_chunk :
    smart_split_message ("aaaaaa".toList) 5 = [("aaaaaa".toList)] ∧
      ¬ ((("aaaaaa".toList).length : Int) ≤ 5) := by
  refine ⟨by decide, by decide⟩

/-- Claim C2: evaluation at the failing input.  When the oversized `<pre>`
block is reached, the pending chunk `<b>xy` is flushed without the closing
tags for the open stack (utils.py lines 219-222), producing a chunk with one
`<b>` and no `</b>`, and later an unmatched `</b>` in the last chunk. -/
theorem C2_unbalanced_chunk :
    smart_split_message ("<b>xy <pre>aaaaa\nbbbb</pre> z</b>".toList) 20
        = [("<b>xy".toList), ("<pre>aaaaa\n</pre>".toList), ("<pre>bbbb\n</pre>".toList),
           ("z</b>".toList)] ∧
      count_sub ("<b>".toList) ("<b>xy".toList) = 1 ∧
      count_sub ("</b>".toList) ("<b>xy".toList) = 0 := by
  refine ⟨by decide, by decide, by decide⟩

/-- Claim C5 (counterexample): a call with the non-positive budget `0` is not
rejected; `smart_split_message` proceeds and silently returns a normal
result. -/
theorem C5_counterexample : smart_split_message ("a".toList) 0 = [("a".toList)] := by decide

/-- Claim C6: the fast path.  When the text already fits the budget the
function returns the single-element list holding the unchanged input. -/
theorem C6_fast_path (text : Str) (maxLen : Int) (h : (text.length : Int) ≤ maxLen) :
    smart_split_message text maxLen = [text] := by
  unfold smart_split_message
  rw [if_pos h]

theorem C6_fast_path_witness :
    ((("hello".toList : Str).length : Int) ≤ 10) ∧
      smart_split_message ("hello".toList) 10 = [("hello".toList)] :=
  ⟨by decide, C6_fast_path ("hello".toList) 10 (by decide)⟩

theorem scanTagsAux_nil (f : Nat) : scanTagsAux f [] = [] := by
  cases f with
  | zero => rfl
  | succ g => rfl

theorem matchTagAt_close (name : Str) (h1 : name ≠ []) (h2 : ∀ c ∈ name, isWordChar c = true) :
    matchTagAt ('<' :: '/' :: (name ++ ['>'])) = some (TagTok.close name, []) := by
  have hgt : List.takeWhile isWordChar ['>'] = [] := by decide
  have hgt2 : List.dropWhile isWordChar ['>'] = ['>'] := by decide
  have hw : (name ++ ['>']).takeWhile isWordChar = name := by
    rw [takeWhile_append_all h2, hgt, List.append_nil]
  have hd : (name ++ ['>']).dropWhile isWordChar = ['>'] := by
    rw [dropWhile_append_all h2, hgt2]
  show (let slash := ('/' :: (name ++ ['>'])).take 1 = ['/']
        let r2 := if slash then ('/' :: (name ++ ['>'])).drop 1 else '/' :: (name ++ ['>'])
        let w := r2.takeWhile isWordChar
        let r3 := r2.dropWhile isWordChar
        let named : Option (TagTok × Str) :=
          if w = [] then none
          else
            match r3 with
            | '>' :: rest =>
              some (if slash then TagTok.close w else TagTok.opn ('<' :: w ++ ['>']), rest)
            | c :: r4 =>
              if pySpace c then
                let attrs := r4.takeWhile (fun x => x ≠ '>')
                match r4.dropWhile (fun x => x ≠ '>') with
                | '>' :: rest =>
                  some (if slash then TagTok.close w
                        else TagTok.opn ('<' :: w ++ c :: attrs ++ ['>']), rest)
                | _ => none
              else none
            | [] => none
        match named with
        | some t => some t
        | none =>
          if ("<tg-spoiler>".toList).isPrefixOf ('<' :: '/' :: (name ++ ['>'])) then
            some (TagTok.spOpen, ('<' :: '/' :: (name ++ ['>'])).drop 12)
          else if ("</tg-spoiler>".toList).isPrefixOf ('<' :: '/' :: (name ++ ['>'])) then
            some (TagTok.spClose, ('<' :: '/' :: (name ++ ['>'])).drop 13)
          else none)
      = some (TagTok.close name, [])
  have hslash : (('/' :: (name ++ ['>'])).take 1 = (['/'] : Str)) = True := by
    simp [List.take_cons]
  simp only [hslash, if_true, List.drop_succ_cons, List.drop_zero, hw, hd, if_neg h1]

theorem scanTags_close (name : Str) (h1 : name ≠ []) (h2 : ∀ c ∈ name, isWordChar c = true) :
    scanTags ('<' :: '/' :: (name ++ ['>'])) = [TagTok.close name] := by
  have hl : ('<' :: '/' :: (name ++ ['>'])).length + 1 = (name.length + 3) + 1 := by
    simp
  unfold scanTags
  rw [hl]
  rw [scanTagsAux]
  rw [matchTagAt_close name h1 h2]
  simp [scanTagsAux_nil]

theorem popMatchAux_no_match {name : Str} {st : List Str}
    (h : ∀ e ∈ st, ¬ (('<' :: name).isPrefixOf e = true)) : popMatchAux name st = st := by
  induction st with
  | nil => rfl
  | cons t ts ih =>
    unfold popMatchAux
    rw [if_neg (h t (by simp))]
    rw [ih (fun e he => h e (by simp [he]))]

theorem popMatchAux_first {name : Str} {a : List Str} {e : Str} {b : List Str}
    (he : ('<' :: name).isPrefixOf e = true)
    (ha : ∀ x ∈ a, ¬ (('<' :: name).isPrefixOf x = true)) :
    popMatchAux name (a ++ e :: b) = a ++ b := by
  induction a with
  | nil =>
    unfold popMatchAux
    simp [he]
  | cons t ts ih =>
    simp only [List.cons_append, popMatchAux]
    rw [if_neg (ha t (by simp))]
    rw [show ts.append (e :: b) = ts ++ e :: b from rfl]
    rw [ih (fun x hx => ha x (by simp [hx]))]

theorem track_tags_close_eq (st : List Str) (name : Str) (h1 : name ≠ [])
    (h2 : ∀ c ∈ name, isWordChar c = true) :
    track_tags st ('<' :: '/' :: (name ++ ['>'])) = popMatchAux name st := by
  unfold track_tags
  rw [scanTags_close name h1 h2]
  rfl

/-- Claim C8 (amended): during chunk assembly a *named* closing tag pops the
entry nearest the top of the open stack whose text starts with `<name`
(searched from the top downward), and a closing tag with no matching open
entry is simply ignored; a *spoiler* closing construct however pops only
when the top of the stack is exactly `<tg-spoiler>` and is otherwise
ignored (the stack is not searched further down).  The stack is stored most
recently opened first. -/
theorem C8_close_tag_policy :
    (∀ (st : List Str) (name : Str), name ≠ [] → (∀ c ∈ name, isWordChar c = true) →
      (∀ e ∈ st, ¬ (('<' :: name).isPrefixOf e = true)) →
      track_tags st ('<' :: '/' :: (name ++ ['>'])) = st) ∧
    (∀ (a : List Str) (e : Str) (b : List Str) (name : Str),
      name ≠ [] → (∀ c ∈ name, isWordChar c = true) →
      ('<' :: name).isPrefixOf e = true →
      (∀ x ∈ a, ¬ (('<' :: name).isPrefixOf x = true)) →
      track_tags (a ++ e :: b) ('<' :: '/' :: (name ++ ['>'])) = a ++ b) ∧
    (∀ st : List Str, track_tags (("<tg-spoiler>".toList) :: st) ("</tg-spoiler>".toList) = st) ∧
    (∀ (e : Str) (st : List Str), e ≠ ("<tg-spoiler>".toList) →
      track_tags (e :: st) ("</tg-spoiler>".toList) = e :: st) := by
  have hsp : scanTags ("</tg-spoiler>".toList) = [TagTok.spClose] := by decide
  refine ⟨?_, ?_, ?_, ?_⟩
  · intro st name h1 h2 h3
    rw [track_tags_close_eq st name h1 h2]
    exact popMatchAux_no_match h3
  · intro a e b name h1 h2 he ha
    rw [track_tags_close_eq (a ++ e :: b) name h1 h2]
    exact popMatchAux_first he ha
  · intro st
    unfold track_tags
    rw [hsp]
    show applyTok (("<tg-spoiler>".toList) :: st) TagTok.spClose = st
    simp [applyTok]
  · intro e st h
    unfold track_tags
    rw [hsp]
    show applyTok (e :: st) TagTok.spClose = e :: st
    simp only [applyTok]
    rw [if_neg h]

theorem C8_close_tag_policy_witness :
    track_tags [("<i>".toList)] ("</b>".toList) = [("<i>".toList)] ∧
      track_tags [("<i>".toList), ("<b>".toList), ("<s>".toList)] ("</b>".toList)
        = [("<i>".toList), ("<s>".toList)] ∧
      track_tags [("<tg-spoiler>".toList)] ("</tg-spoiler>".toList) = [] ∧
      track_tags [("<b>".toList)] ("</tg-spoiler>".toList) = [("<b>".toList)] :=
  ⟨C8_close_tag_policy.1 [("<i>".toList)] ("b".toList) (by decide) (by decide) (by decide),
   C8_close_tag_policy.2.1 [("<i>".toList)] ("<b>".toList) [("<s>".toList)] ("b".toList)
     (by decide) (by decide) (by decide) (by decide),
   C8_close_tag_policy.2.2.1 [],
   C8_close_tag_policy.2.2.2 ("<b>".toList) [] (by decide)⟩

/-- Claim C8 (counterexample): a spoiler construct is *not* tracked in the
same way as a named tag.  After `<tg-spoiler><b>`, the closing
`</tg-spoiler>` finds `<b>` on top of the stack and is ignored by the
source, whereas the by-name downward search described by the spec would pop
the spoiler entry. -/
theorem C8_counterexample :
    track_tags [] ("<tg-spoiler><b></tg-spoiler>".toList)
        = [("<b>".toList), ("<tg-spoiler>".toList)] ∧
      track_tags_spec_named [] ("<tg-spoiler><b></tg-spoiler>".toList) = [("<b>".toList)] ∧
      track_tags [] ("<tg-spoiler><b></tg-spoiler>".toList)
        ≠ track_tags_spec_named [] ("<tg-spoiler><b></tg-spoiler>".toList) := by
  refine ⟨by decide, by decide, by decide⟩

theorem find_pre_none {s : Str} (h : '<' ∉ s) : find_pre s = none := by
  unfold find_pre
  rw [breakAt_none_of_not_mem (c := '<') (t := ("<pre>".toList)) (by decide) h]

theorem buildBlocks_no_pre {s : Str} (h : '<' ∉ s) :
    buildBlocks s = if pyStrip s = [] then [] else [(BKind.text, pyStrip s)] := by
  unfold buildBlocks buildBlocksAux
  rw [find_pre_none h]

theorem matchSentAt_decomp {s sep rest : Str} (h : matchSentAt s = some (sep, rest)) :
    s = sep ++ rest := by
  simp only [matchSentAt] at h
  split_ifs at h with h1 h2
  · injection h with h3
    injection h3 with hsep hrest
    subst hsep hrest
    rw [List.append_assoc]
    rw [List.takeWhile_append_dropWhile]
    rw [List.takeWhile_append_dropWhile]
  · split at h
    · injection h with h3
      injection h3 with hsep hrest
      subst hsep hrest
      rw [List.takeWhile_append_dropWhile]
    · exact absurd h (by simp)

theorem findSent_decomp {s : Str} :
    ∀ {b sep rest : Str}, findSent s = some (b, sep, rest) → s = b ++ sep ++ rest := by
  induction s with
  | nil => intro b sep rest h; exact absurd h (by simp [findSent])
  | cons c cs ih =>
    intro b sep rest h
    unfold findSent at h
    cases hm : matchSentAt (c :: cs) with
    | some p =>
      rw [hm] at h
      cases p with
      | mk sep2 rest2 =>
        injection h with h2
        injection h2 with hb h3
        injection h3 with hsep hrest
        subst hb hsep hrest
        simpa using matchSentAt_decomp (s := c :: cs) (by rw [hm])
    | none =>
      rw [hm] at h
      cases hf : findSent cs with
      | none => rw [hf] at h; simp at h
      | some q =>
        rw [hf] at h
        simp only [Option.map] at h
        injection h with h2
        injection h2 with hb h3
        injection h3 with hsep hrest
        subst hsep hrest
        rw [← hb]
        have := ih hf
        simp [this]

theorem sentSplitAux_mem {f : Nat} {s piece : Str} (h : piece ∈ sentSplitAux f s) :
    ∀ c ∈ piece, c ∈ s := by
  induction f generalizing s with
  | zero =>
    simp only [sentSplitAux, List.mem_singleton] at h
    subst h
    exact fun c hc => hc
  | succ g ih =>
    unfold sentSplitAux at h
    cases hf : findSent s with
    | none =>
      rw [hf] at h
      simp only [List.mem_singleton] at h
      subst h
      exact fun c hc => hc
    | some p =>
      rw [hf] at h
      obtain ⟨b, sep, rest⟩ := p
      have hdec : s = b ++ sep ++ rest := findSent_decomp hf
      simp only [List.mem_cons] at h
      rcases h with h | h | h
      · subst h; intro c hc; rw [hdec]; simp [hc]
      · subst h; intro c hc; rw [hdec]; simp [hc]
      · intro c hc
        have := ih h c hc
        rw [hdec]
        simp [this]

theorem sentence_split_mem {s piece : Str} (h : piece ∈ sentence_split s) :
    ∀ c ∈ piece, c ∈ s := sentSplitAux_mem h

theorem sent_loop_all_blank {maxLen : Int} {st : SState} {sents : List Str}
    (h : ∀ x ∈ sents, pyStrip x = []) : sent_loop maxLen st sents = st := by
  induction sents with
  | nil => rfl
  | cons x xs ih =>
    unfold sent_loop
    rw [if_pos (h x (by simp))]
    exact ih (fun y hy => h y (by simp [hy]))

theorem process_block_text_blank {maxLen : Int} {bc : Str}
    (hlen : (bc.length : Int) > maxLen)
    (hsents : ∀ x ∈ sentence_split bc, pyStrip x = []) :
    process_block maxLen ⟨[], [], []⟩ BKind.text bc = ⟨[], [], []⟩ := by
  have hB : ((List.length ([] : Str) + bc.length + 2 : Nat) : Int) > maxLen := by
    push_cast
    omega
  have hC : ((List.length ([] : Str) + bc.length : Nat) : Int) > maxLen := by
    push_cast
    omega
  simp only [process_block]
  norm_num [pyStrip_nil, get_open_tags_string, hB, hC]
  rw [if_neg (fun hh => absurd hh.1 (by decide) :
        ¬ (BKind.text = BKind.special ∧ maxLen < (bc.length : Int)))]
  rw [if_pos (by omega : maxLen < (bc.length : Int) + 2)]
  rw [if_pos (by omega : maxLen < (bc.length : Int))]
  exact sent_loop_all_blank hsents

/-- Claim C10: an input consisting only of whitespace characters whose length
exceeds the budget yields the empty chunk sequence: the blocks list falls
back to the whole raw text, every sentence piece strips to empty and is
skipped, and the blank final accumulator is not appended. -/
theorem C10_whitespace_only (text : Str) (maxLen : Int)
    (hws : ∀ c ∈ text, pySpace c = true) (hlen : (text.length : Int) > maxLen) :
    smart_split_message text maxLen = [] := by
  have hlt : '<' ∉ text := by
    intro hc
    have := hws _ hc
    simp [pySpace] at this
  have hstrip : pyStrip text = [] := pyStrip_eq_nil_of_all_space hws
  have hbb : buildBlocks text = [] := by
    rw [buildBlocks_no_pre hlt, if_pos hstrip]
  have hsents : ∀ x ∈ sentence_split text, pyStrip x = [] := by
    intro x hx
    exact pyStrip_eq_nil_of_all_space (fun c hc => hws c (sentence_split_mem hx c hc))
  unfold smart_split_message
  rw [if_neg (by omega : ¬ ((text.length : Int) ≤ maxLen))]
  simp only [hbb, List.foldl, if_pos rfl]
  rw [process_block_text_blank hlen hsents]
  norm_num [pyStrip_nil]

theorem C10_whitespace_only_witness :
    (∀ c ∈ ("\n\n\n\n\n\n".toList), pySpace c = true) ∧
      ((("\n\n\n\n\n\n".toList : Str).length : Int) > 5) ∧
      smart_split_message ("\n\n\n\n\n\n".toList) 5 = [] :=
  ⟨by decide, by decide, C10_whitespace_only ("\n\n\n\n\n\n".toList) 5 (by decide) (by decide)⟩

theorem C5_sent_loop (m : Int) (h : m ≤ 0) :
    sent_loop m ⟨[], [], []⟩ [("a".toList)] = ⟨[], ("a".toList), []⟩ := by
  unfold sent_loop
  rw [if_neg (by decide : ¬ (pyStrip ("a".toList) = []))]
  rw [if_neg (by simp; omega :
        ¬ ((((SState.mk [] [] []).cur.length + ("a".toList : Str).length : Nat) : Int) ≤ m))]
  norm_num [pyStrip_nil, get_open_tags_string]
  show sent_loop m ⟨[], ("a".toList), track_tags [] ("a".toList)⟩ [] = ⟨[], ("a".toList), []⟩
  norm_num [sent_loop]
  decide

theorem C5_process_block (m : Int) (h : m ≤ 0) :
    process_block m ⟨[], [], []⟩ BKind.text ("a".toList) = ⟨[], ("a".toList), []⟩ := by
  simp only [process_block]
  norm_num [pyStrip_nil, get_open_tags_string]
  rw [if_neg (fun hh => absurd hh.1 (by decide) : ¬ (BKind.text = BKind.special ∧ m < 1))]
  rw [if_pos (by omega : m < 3)]
  rw [if_pos (by omega : m < 1)]
  have hss : sentence_split (['a'] : Str) = [(['a'] : Str)] := by decide
  rw [hss]
  exact C5_sent_loop m h

/-- Claim C5 (amended): a non-positive `max_length` is *not* rejected at the
call boundary.  `smart_split_message` performs no validation, proceeds
normally, terminates, and silently returns an ordinary result: for every
`max_length ≤ 0` the call on the one-sentence input `a` returns `["a"]`. -/
theorem C5_not_validated (m : Int) (h : m ≤ 0) :
    smart_split_message ("a".toList) m = [("a".toList)] := by
  have hbb : buildBlocks ("a".toList) = [(BKind.text, ("a".toList))] := by decide
  unfold smart_split_message
  rw [if_neg (by simp; omega : ¬ ((("a".toList : Str).length : Int) ≤ m))]
  simp only [hbb, List.foldl]
  have hps : pyStrip ("a".toList) = ("a".toList) := by decide
  simp only [hps]
  rw [C5_process_block m h]
  decide

theorem C5_not_validated_witness :
    ((-7 : Int) ≤ 0) ∧ smart_split_message ("a".toList) (-7) = [("a".toList)] :=
  ⟨by decide, C5_not_validated (-7) (by decide)⟩

theorem nlJoin_nil : nlJoin [] = [] := rfl

theorem nlJoin_append (a b : List Str) : nlJoin (a ++ b) = nlJoin a ++ nlJoin b := by
  unfold nlJoin
  rw [List.map_append, List.flatten_append]

theorem nlJoin_single (l : Str) : nlJoin [l] = l ++ ['\n'] := by
  unfold nlJoin
  simp

theorem nlJoin_ne_nil {g : List Str} (h : g ≠ []) : nlJoin g ≠ [] := by
  cases g with
  | nil => exact absurd rfl h
  | cons l ls =>
    unfold nlJoin
    simp

theorem pySplitChar_ne_nil (d : Char) (s : Str) : pySplitChar d s ≠ [] := by
  cases s with
  | nil => simp [pySplitChar]
  | cons c cs =>
    unfold pySplitChar
    by_cases hc : c = d
    · simp [hc]
    · rw [if_neg hc]
      cases hr : pySplitChar d cs <;> simp

theorem nlJoin_pySplitChar (s : Str) : nlJoin (pySplitChar '\n' s) = s ++ ['\n'] := by
  induction s with
  | nil => simp [pySplitChar, nlJoin]
  | cons c cs ih =>
    unfold pySplitChar
    by_cases hc : c = '\n'
    · subst hc
      rw [if_pos rfl]
      rw [show nlJoin ([] :: pySplitChar '\n' cs) = nlJoin [[]] ++ nlJoin (pySplitChar '\n' cs)
          from nlJoin_append [[]] (pySplitChar '\n' cs)]
      rw [ih, nlJoin_single]
      simp
    · rw [if_neg hc]
      cases hr : pySplitChar '\n' cs with
      | nil => exact absurd hr (pySplitChar_ne_nil '\n' cs)
      | cons h0 t0 =>
        rw [hr] at ih
        rw [show nlJoin ((c :: h0) :: t0) = ((c :: h0) ++ ['\n']) ++ nlJoin t0 from rfl]
        rw [show nlJoin (h0 :: t0) = (h0 ++ ['\n']) ++ nlJoin t0 from rfl] at ih
        simp only [List.cons_append]
        rw [List.append_assoc] at ih
        rw [List.append_assoc]
        rw [ih]

theorem split_pre_lines_spec (maxLen : Int) :
    ∀ (lines : List Str), (∀ l ∈ lines, ((l.length + 12 : Nat) : Int) ≤ maxLen) →
    ∀ (parts : List Str) (tg : List Str),
      (tg = [] ∨ (((nlJoin tg).length + 11 : Nat) : Int) ≤ maxLen) →
      ∃ groups : List (List Str),
        groups.flatten = tg ++ lines ∧
        (∀ g ∈ groups, g ≠ []) ∧
        (∀ g ∈ groups, (((nlJoin g).length + 11 : Nat) : Int) ≤ maxLen) ∧
        ((if (split_pre_lines maxLen parts (nlJoin tg) lines).2 ≠ [] then
            (split_pre_lines maxLen parts (nlJoin tg) lines).1
              ++ [wrapPre (split_pre_lines maxLen parts (nlJoin tg) lines).2]
          else (split_pre_lines maxLen parts (nlJoin tg) lines).1)
          = parts ++ groups.map (fun g => wrapPre (nlJoin g))) := by
  intro lines
  induction lines with
  | nil =>
    intro _ parts tg htg
    rcases htg with htg | htg
    · subst htg
      refine ⟨[], by simp, by simp, by simp, ?_⟩
      simp [split_pre_lines, nlJoin_nil]
    · by_cases hnil : tg = []
      · subst hnil
        refine ⟨[], by simp, by simp, by simp, ?_⟩
        simp [split_pre_lines, nlJoin_nil]
      · refine ⟨[tg], by simp, by simp [hnil],
          (by intro g hg; rw [List.mem_singleton.mp hg]; exact htg), ?_⟩
        simp only [split_pre_lines]
        rw [if_pos (nlJoin_ne_nil hnil)]
        simp
  | cons line rest ih =>
    intro hl parts tg htg
    have hline : ((line.length + 12 : Nat) : Int) ≤ maxLen := hl line (by simp)
    have hrest : ∀ l ∈ rest, ((l.length + 12 : Nat) : Int) ≤ maxLen :=
      fun l hm => hl l (by simp [hm])
    by_cases hcond : (((nlJoin tg).length + line.length + 12 : Nat) : Int) ≤ maxLen
    · have hbound : (((nlJoin (tg ++ [line])).length + 11 : Nat) : Int) ≤ maxLen := by
        rw [nlJoin_append, nlJoin_single]
        push_cast at hcond ⊢
        simp only [List.length_append, List.length_cons, List.length_nil]
        push_cast
        omega
      obtain ⟨groups, hflat, hne, hbnd, hres⟩ := ih hrest parts (tg ++ [line]) (Or.inr hbound)
      refine ⟨groups, ?_, hne, hbnd, ?_⟩
      · rw [hflat]
        simp
      · rw [show split_pre_lines maxLen parts (nlJoin tg) (line :: rest)
              = split_pre_lines maxLen parts (nlJoin (tg ++ [line])) rest from ?_]
        · exact hres
        · simp only [split_pre_lines]
          rw [if_pos hcond, nlJoin_append, nlJoin_single, List.append_assoc]
    · have hnil : tg ≠ [] := by
        intro hh
        subst hh
        rw [nlJoin_nil] at hcond
        simp only [List.length_nil, Nat.zero_add] at hcond
        exact hcond hline
      have htg2 : (((nlJoin tg).length + 11 : Nat) : Int) ≤ maxLen := by
        rcases htg with htg | htg
        · exact absurd htg hnil
        · exact htg
      have hbound : (((nlJoin [line]).length + 11 : Nat) : Int) ≤ maxLen := by
        rw [nlJoin_single]
        push_cast at hline ⊢
        simp only [List.length_append, List.length_cons, List.length_nil]
        push_cast
        omega
      obtain ⟨groups, hflat, hne, hbnd, hres⟩ :=
        ih hrest (parts ++ [wrapPre (nlJoin tg)]) [line] (Or.inr hbound)
      refine ⟨tg :: groups, ?_, ?_, ?_, ?_⟩
      · rw [show (tg :: groups).flatten = tg ++ groups.flatten from rfl, hflat]
        simp
      · intro g hg
        rcases List.mem_cons.mp hg with hg | hg
        · rw [hg]; exact hnil
        · exact hne g hg
      · intro g hg
        rcases List.mem_cons.mp hg with hg | hg
        · rw [hg]; exact htg2
        · exact hbnd g hg
      · rw [show split_pre_lines maxLen parts (nlJoin tg) (line :: rest)
              = split_pre_lines maxLen (parts ++ [wrapPre (nlJoin tg)]) (nlJoin [line]) rest
            from ?_]
        · rw [hres]
          simp
        · simp only [split_pre_lines]
          rw [if_neg hcond, if_pos (nlJoin_ne_nil hnil), nlJoin_single]
          rfl

theorem buildBlocksAux_nil (f : Nat) : buildBlocksAux f [] = [] := by
  cases f with
  | zero => rfl
  | succ g =>
    show (match find_pre [] with
          | none => if pyStrip [] = [] then [] else [(BKind.text, pyStrip [])]
          | some (b, blk, r) =>
            (if pyStrip b = [] then [] else [(BKind.text, pyStrip b)])
              ++ (BKind.special, blk) :: buildBlocksAux g r) = []
    rfl

theorem find_pre_wrapPre {inner : Str}
    (hnc : breakAt ("</pre>".toList) (inner ++ ("</pre>".toList)) = some (inner, [])) :
    find_pre (wrapPre inner) = some ([], wrapPre inner, []) := by
  have hp : ("<pre>".toList).isPrefixOf (wrapPre inner) = true := by
    rw [List.isPrefixOf_iff_prefix]
    exact ⟨inner ++ ("</pre>".toList), by simp [wrapPre]⟩
  have hdrop : (wrapPre inner).drop 5 = inner ++ ("</pre>".toList) := by
    unfold wrapPre
    rw [List.append_assoc]
    rw [show (5 : Nat) = ("<pre>".toList : Str).length from rfl]
    exact List.drop_left _ _
  unfold find_pre
  rw [breakAt.eq_def, if_pos hp]
  rw [show ("<pre>".toList : Str).length = 5 from rfl]
  rw [hdrop]
  simp only [hnc]
  rfl

theorem buildBlocks_wrapPre {inner : Str}
    (hnc : breakAt ("</pre>".toList) (inner ++ ("</pre>".toList)) = some (inner, [])) :
    buildBlocks (wrapPre inner) = [(BKind.special, wrapPre inner)] := by
  unfold buildBlocks buildBlocksAux
  rw [find_pre_wrapPre hnc]
  simp [pyStrip_nil, buildBlocksAux_nil]

theorem pre_inner_wrapPre (inner : Str) : pre_inner (wrapPre inner) = inner := by
  have hlen : (wrapPre inner).length = inner.length + 11 := by
    simp [wrapPre]
  have hdrop : (wrapPre inner).drop 5 = inner ++ ("</pre>".toList) := by
    unfold wrapPre
    rw [List.append_assoc]
    rw [show (5 : Nat) = ("<pre>".toList : Str).length from rfl]
    exact List.drop_left _ _
  unfold pre_inner
  rw [hlen, hdrop]
  rw [show inner.length + 11 - 11 = inner.length from by omega]
  exact List.take_left _ _

theorem process_block_oversized_pre {maxLen : Int} {inner : Str}
    (hbig : ((inner.length + 11 : Nat) : Int) > maxLen) :
    process_block maxLen ⟨[], [], []⟩ BKind.special (wrapPre inner)
      = ⟨(if (split_pre_lines maxLen [] [] (pySplitChar '\n' inner)).2 ≠ [] then
            (split_pre_lines maxLen [] [] (pySplitChar '\n' inner)).1
              ++ [wrapPre (split_pre_lines maxLen [] [] (pySplitChar '\n' inner)).2]
          else (split_pre_lines maxLen [] [] (pySplitChar '\n' inner)).1), [], []⟩ := by
  have hp : ("<pre>".toList).isPrefixOf (wrapPre inner) = true := by
    rw [List.isPrefixOf_iff_prefix]
    exact ⟨inner ++ ("</pre>".toList), by simp [wrapPre]⟩
  have hA : BKind.special = BKind.special ∧ (((wrapPre inner).length : Nat) : Int) > maxLen := by
    refine ⟨rfl, ?_⟩
    rw [show (wrapPre inner).length = inner.length + 11 from by simp [wrapPre]]
    exact hbig
  simp only [process_block]
  norm_num [pyStrip_nil, wrapPre]
  rw [if_pos (by push_cast at hbig; omega :
        maxLen < (inner.length : Int) + 6 + 1 + 1 + 1 + 1 + 1)]
  rw [show ('<' :: 'p' :: 'r' :: 'e' :: '>' :: (inner ++ ['<', '/', 'p', 'r', 'e', '>']))
        = wrapPre inner from by simp [wrapPre]]
  rw [pre_inner_wrapPre]

/-- Claim C9 (amended): a preformatted block longer than `max_length` is
sliced only at its internal line boundaries (never mid-line) into successive
pieces, each re-wrapped in its own `<pre>`/`</pre>` pair; each piece is
within the budget *provided every line fits the budget* (`len(line) + 12 ≤
max_length`); and the concatenated inner content of the pieces equals the
original inner content *plus one trailing newline* (the loop appends `\n`
to every line, including the last).  `groups` is the partition of the
block's lines into the consecutive runs carried by each piece. -/
theorem C9_oversized_pre_slicing (inner : Str) (maxLen : Int)
    (hnc : breakAt ("</pre>".toList) (inner ++ ("</pre>".toList)) = some (inner, []))
    (hbig : ((inner.length + 11 : Nat) : Int) > maxLen)
    (hlines : ∀ l ∈ pySplitChar '\n' inner, ((l.length + 12 : Nat) : Int) ≤ maxLen) :
    ∃ groups : List (List Str),
      groups.flatten = pySplitChar '\n' inner ∧
      (∀ g ∈ groups, g ≠ []) ∧
      smart_split_message (wrapPre inner) maxLen
        = groups.map (fun g => wrapPre (nlJoin g)) ∧
      (∀ p ∈ smart_split_message (wrapPre inner) maxLen, ((p.length : Nat) : Int) ≤ maxLen) ∧
      nlJoin (pySplitChar '\n' inner) = inner ++ ['\n'] := by
  obtain ⟨groups, hflat, hne, hbnd, hres⟩ :=
    split_pre_lines_spec maxLen (pySplitChar '\n' inner) hlines [] [] (Or.inl rfl)
  rw [nlJoin_nil] at hres
  have hsm : smart_split_message (wrapPre inner) maxLen
      = groups.map (fun g => wrapPre (nlJoin g)) := by
    unfold smart_split_message
    rw [if_neg (by simp [wrapPre]; push_cast at hbig; omega :
          ¬ (((wrapPre inner).length : Int) ≤ maxLen))]
    simp only [buildBlocks_wrapPre hnc, List.foldl]
    rw [process_block_oversized_pre hbig]
    rw [if_neg (by simp [pyStrip_nil])]
    rw [hres]
    simp
  refine ⟨groups, by simpa using hflat, hne, hsm, ?_, nlJoin_pySplitChar inner⟩
  rw [hsm]
  intro p hp
  obtain ⟨g, hg, rfl⟩ := List.mem_map.mp hp
  have hb := hbnd g hg
  have hwl : (wrapPre (nlJoin g)).length = (nlJoin g).length + 11 := by
    simp [wrapPre]
  rw [hwl]
  push_cast at hb
  push_cast
  omega

theorem C9_oversized_pre_slicing_witness :
    ∃ groups : List (List Str),
      groups.flatten = pySplitChar '\n' ("ab\ncd".toList) ∧
      (∀ g ∈ groups, g ≠ []) ∧
      smart_split_message (wrapPre ("ab\ncd".toList)) 15
        = groups.map (fun g => wrapPre (nlJoin g)) ∧
      (∀ p ∈ smart_split_message (wrapPre ("ab\ncd".toList)) 15,
        ((p.length : Nat) : Int) ≤ 15) ∧
      nlJoin (pySplitChar '\n' ("ab\ncd".toList)) = ("ab\ncd".toList) ++ ['\n'] :=
  C9_oversized_pre_slicing ("ab\ncd".toList) 15 (by decide) (by decide) (by decide)

/-- Claim C9 (counterexample): with `max_length = 15`, the block
`<pre>aaaaaaaaaaaaaaaa\ncd</pre>` is sliced into two pieces of which the
first (its single line plus the re-wrapping tags) has length 28 > 15, and
the concatenated inner content of the pieces carries an extra trailing
newline, so it differs from the original inner content. -/
theorem C9_counterexample :
    smart_split_message ("<pre>aaaaaaaaaaaaaaaa\ncd</pre>".toList) 15
        = [("<pre>aaaaaaaaaaaaaaaa\n</pre>".toList), ("<pre>cd\n</pre>".toList)] ∧
      ¬ (((("<pre>aaaaaaaaaaaaaaaa\n</pre>".toList : Str)).length : Int) ≤ 15) ∧
      pre_inner ("<pre>aaaaaaaaaaaaaaaa\n</pre>".toList)
          ++ pre_inner ("<pre>cd\n</pre>".toList)
        ≠ pre_inner ("<pre>aaaaaaaaaaaaaaaa\ncd</pre>".toList) := by
  refine ⟨by decide, by decide, by decide⟩
